import Mathlib

/-!
# Verification of the SmartCanvas drawing core

A shallow embedding of the operation model, history manager, stroke
simplifier, shape-constraint engine, renderer dispatch, serialization
loading and layer management of `src/components/SmartCanvas.tsx`,
together with proofs about them.

JavaScript numbers are modelled as real numbers; the purely algebraic
parts (polyline simplification) are stated over an arbitrary linear
ordered field so that they can also be evaluated on rationals.
-/

open Real

namespace SmartCanvas

/-! ## Geometry utilities (generic over a linear ordered field) -/

/-- A pointer sample.  The pressure field is optional in the source
(`p?: number`). -/
structure Point (K : Type) where
  x : K
  y : K
  p : Option K := none
deriving DecidableEq

instance {K : Type} [LinearOrderedField K] : Inhabited (Point K) :=
  ⟨⟨0, 0, none⟩⟩

variable {K : Type} [LinearOrderedField K]

/-- `const sq = (n) => n * n` -/
def sq (n : K) : K := n * n

/-- `distSqToSegment` from `simplifyRDP`: squared distance from `p` to the
segment `a`-`b`. -/
def distSqToSegment (p a b : Point K) : K :=
  let vx := b.x - a.x
  let vy := b.y - a.y
  let wx := p.x - a.x
  let wy := p.y - a.y
  let c1 := vx * wx + vy * wy
  if c1 ≤ 0 then sq (p.x - a.x) + sq (p.y - a.y)
  else
    let c2 := vx * vx + vy * vy
    if c2 ≤ c1 then sq (p.x - b.x) + sq (p.y - b.y)
    else
      let t := c1 / c2
      let px := a.x + t * vx
      let py := a.y + t * vy
      sq (p.x - px) + sq (p.y - py)

/-- The scan `for (let i = 1; i < end; i++)` inside `rdp` that finds the
index of maximum squared distance to the chord, starting from
`idx = 0, dmax = 0`. -/
def maxPerp (pts : List (Point K)) : ℕ × K :=
  (List.range (pts.length - 1 - 1)).foldl
    (fun acc j =>
      if acc.2 < distSqToSegment (pts.getD (j + 1) default) (pts.getD 0 default)
          (pts.getD (pts.length - 1) default)
      then (j + 1, distSqToSegment (pts.getD (j + 1) default) (pts.getD 0 default)
          (pts.getD (pts.length - 1) default))
      else acc)
    (0, 0)

/-- The recursive `rdp(pts, epsSq)`.  A fuel argument (always instantiated
with `pts.length`, which strictly bounds the recursion depth of the
source) makes the recursion structural; `pts.slice(0, idx + 1)` is
`pts.take (idx + 1)` and `pts.slice(idx, end + 1)` is `pts.drop idx`. -/
def rdp : ℕ → List (Point K) → K → List (Point K)
  | 0, pts, _ => pts
  | fuel + 1, pts, epsSq =>
    let m := maxPerp pts
    if epsSq < m.2 then
      let rec1 := rdp fuel (pts.take (m.1 + 1)) epsSq
      let rec2 := rdp fuel (pts.drop m.1) epsSq
      rec1.dropLast ++ rec2
    else [pts.getD 0 default, pts.getD (pts.length - 1) default]

/-- `simplifyRDP(points, epsilon = 0.8)`. -/
def simplifyRDP (points : List (Point K)) (epsilon : K := 4 / 5) : List (Point K) :=
  if points.length < 3 then points
  else rdp points.length points (epsilon * epsilon)

/-- `a` and `b` are consecutive elements of `l` (the segment `a`-`b` is a
segment of the polyline `l`). -/
def Adjacent {α : Type} (l : List α) (a b : α) : Prop :=
  ∃ l₁ l₂, l = l₁ ++ a :: b :: l₂

/-! ## Operation model (over the reals) -/

/-- The drawing tools of `TOOLS`. -/
inductive Tool where
  | pen | highlighter | eraser | line | rect | ellipse | text | select
deriving DecidableEq

/-- The three shape kinds of a `ShapeOp`. -/
inductive ShapeKind where
  | line | rect | ellipse
deriving DecidableEq

/-- `StrokeOp`.  Colors, composite operations and brush types are the
strings the source stores. -/
structure StrokeOp where
  tool : Tool
  color : String
  size : ℝ
  alpha : ℝ
  composite : String
  points : List (Point ℝ)
  smooth : Bool
  brushType : String
  layer : ℕ

/-- `ShapeOp`. -/
structure ShapeOp where
  shape : ShapeKind
  color : String
  size : ℝ
  alpha : ℝ
  composite : String
  x0 : ℝ
  y0 : ℝ
  x1 : ℝ
  y1 : ℝ
  layer : ℕ

/-- `TextOp`. -/
structure TextOp where
  text : String
  x : ℝ
  y : ℝ
  color : String
  size : ℝ
  font : String
  layer : ℕ

/-- The decoded bitmap held by an `ImageOp` (`HTMLImageElement`); only its
intrinsic dimensions matter to the core. -/
structure Img where
  width : ℝ
  height : ℝ

/-- `ImageOp`. -/
structure ImageOp where
  img : Img
  x : ℝ
  y : ℝ
  w : ℝ
  h : ℝ
  layer : ℕ

/-- `type Op = StrokeOp | ShapeOp | ImageOp | TextOp`. -/
inductive Op where
  | stroke (s : StrokeOp)
  | shape (s : ShapeOp)
  | image (i : ImageOp)
  | text (t : TextOp)

/-- The `layer` field common to all `Op` variants. -/
def Op.layer : Op → ℕ
  | .stroke s => s.layer
  | .shape s => s.layer
  | .image i => i.layer
  | .text t => t.layer

/-- `interface Layer`. -/
structure Layer where
  id : ℕ
  name : String
  visible : Bool
  opacity : ℝ

/-- The ambient UI state read by the event handlers (`tool`, `color`,
`size`, `alpha`, `smooth`, `brushType`, `shapeAssist`, `shiftKey`). -/
structure Settings where
  tool : Tool
  color : String
  size : ℝ
  alpha : ℝ
  smooth : Bool
  brushType : String
  shapeAssist : Bool
  shiftKey : Bool

/-- The mutable document state of the component: `ops`, `redo`, `layers`,
`currentLayer`, `isDrawing`, `currentStroke`, `currentShape` and the
floating text editor (modelled by its anchor when visible). -/
structure DocState where
  ops : List Op
  redo : List Op
  layers : List Layer
  currentLayer : ℕ
  isDrawing : Bool
  currentStroke : Option StrokeOp
  currentShape : Option ShapeOp
  textEditor : Option (ℝ × ℝ)

/-! ## Shape constraint engine -/

/-- `Math.atan2(y, x)`, i.e. the principal argument of `x + y i`. -/
noncomputable def atan2 (y x : ℝ) : ℝ :=
  Complex.arg (x + y * Complex.I)

/-- The eight snap directions of `constrainWithShift`. -/
noncomputable def snaps : List ℝ :=
  [0, π / 4, π / 2, 3 * π / 4, π, -(π / 4), -(π / 2), -(3 * π / 4)]

/-- `Math.abs(Math.atan2(Math.sin(angle - a), Math.cos(angle - a)))`: the
angular distance of `angle` to the snap direction `a`. -/
noncomputable def snapDist (angle a : ℝ) : ℝ :=
  |atan2 (Real.sin (angle - a)) (Real.cos (angle - a))|

/-- One iteration of the `for (const a of snaps)` loop:
`if (d < min) { min = d; best = a }`. -/
noncomputable def snapStep (angle : ℝ) (acc : ℝ × WithTop ℝ) (a : ℝ) : ℝ × WithTop ℝ :=
  if ((snapDist angle a : ℝ) : WithTop ℝ) < acc.2 then (a, ((snapDist angle a : ℝ) : WithTop ℝ))
  else acc

/-- The `for (const a of snaps)` loop: running minimum of `snapDist`,
recording the best direction, starting from `best = snaps[0]`,
`min = Number.POSITIVE_INFINITY` (modelled as `⊤`). -/
noncomputable def snapBest (angle : ℝ) : ℝ :=
  (snaps.foldl (snapStep angle) ((0 : ℝ), (⊤ : WithTop ℝ))).1

/-- `constrainWithShift(shape, shift)`. -/
noncomputable def constrainWithShift (shape : ShapeOp) (shift : Bool) : ShapeOp :=
  if !shift then shape
  else if shape.shape = ShapeKind.line then
    let dx := shape.x1 - shape.x0
    let dy := shape.y1 - shape.y0
    let best := snapBest (atan2 dy dx)
    let len := Real.sqrt (dx ^ 2 + dy ^ 2)
    { shape with x1 := shape.x0 + len * Real.cos best, y1 := shape.y0 + len * Real.sin best }
  else
    let w := shape.x1 - shape.x0
    let h := shape.y1 - shape.y0
    let sideX := Real.sign w * min |w| |h|
    let sideY := Real.sign h * min |w| |h|
    { shape with x1 := shape.x0 + sideX, y1 := shape.y0 + sideY }

/-! ## History manager -/

/-- `handleUndo`: move the last committed op, if any, to the front of the
redo stack. -/
def handleUndo (s : DocState) : DocState :=
  match s.ops.getLast? with
  | none => s
  | some o => { s with ops := s.ops.dropLast, redo := o :: s.redo }

/-- `handleRedo`: pop the front of the redo stack, if any, and append it
to the document. -/
def handleRedo (s : DocState) : DocState :=
  match s.redo with
  | [] => s
  | first :: rest => { s with ops := s.ops ++ [first], redo := rest }

/-! ## Pointer handlers -/

/-- `FREEHAND_TOOLS`. -/
def FREEHAND_TOOLS : List Tool := [.pen, .highlighter, .eraser]

/-- `pointerDown(e)` with `e.button` and the already converted device
position.  (`setPointerCapture` is a host concern and has no effect on
the document state.) -/
noncomputable def pointerDown (button : ℕ) (pos : Point ℝ) (cfg : Settings) (s : DocState) :
    DocState :=
  if button ≠ 0 then s
  else
    let s := { s with redo := ([] : List Op) }
    if cfg.tool = Tool.text then { s with textEditor := some (pos.x, pos.y) }
    else
      let s := { s with isDrawing := true }
      if cfg.tool ∈ FREEHAND_TOOLS then
        let stroke : StrokeOp :=
          { tool := cfg.tool
            color := if cfg.tool = Tool.eraser then "#000000" else cfg.color
            size := cfg.size
            alpha := if cfg.tool = Tool.highlighter then 3 / 10 else cfg.alpha
            composite := if cfg.tool = Tool.eraser then "destination-out" else "source-over"
            points := [pos]
            smooth := cfg.smooth
            brushType := cfg.brushType
            layer := s.currentLayer }
        { s with currentStroke := some stroke, ops := s.ops ++ [Op.stroke stroke] }
      else if cfg.tool ≠ Tool.select then
        let shapeName : ShapeKind :=
          if cfg.tool = Tool.line then .line else if cfg.tool = Tool.rect then .rect else .ellipse
        let shape : ShapeOp :=
          { shape := shapeName
            color := cfg.color
            size := cfg.size
            alpha := cfg.alpha
            composite := "source-over"
            x0 := pos.x
            y0 := pos.y
            x1 := pos.x
            y1 := pos.y
            layer := s.currentLayer }
        { s with currentShape := some shape }
      else s

/-- The effect of `pointerUp` on the in-flight stroke: when it is marked
smooth, its captured points are replaced by the RDP simplification with
tolerance `0.9`. -/
noncomputable def finalizeStroke (stroke : StrokeOp) : StrokeOp :=
  if stroke.smooth then { stroke with points := simplifyRDP stroke.points (9 / 10) }
  else stroke

/-- `pointerUp` in the stroke case, under the flow invariant that the last
document element is the in-flight stroke (the source checks this with the
reference equality `last === stroke`, which always holds because
`pointerDown` appended that very object). -/
noncomputable def pointerUpStroke (stroke : StrokeOp) (s : DocState) : DocState :=
  if stroke.smooth then
    { s with
      isDrawing := false
      currentStroke := none
      ops := s.ops.dropLast ++ [Op.stroke (finalizeStroke stroke)] }
  else { s with isDrawing := false, currentStroke := none }

/-- `pointerUp` in the shape case (`currentShape = some base`): the
provisional shape is constrained and committed. -/
noncomputable def pointerUpShape (cfg : Settings) (base : ShapeOp) (s : DocState) : DocState :=
  let sh := if cfg.shapeAssist then constrainWithShift base cfg.shiftKey else base
  { s with isDrawing := false, currentShape := none, ops := s.ops ++ [Op.shape sh] }

/-- `commitText(value)` with the editor anchor `ed`. -/
noncomputable def commitText (value : String) (ed : ℝ × ℝ) (cfg : Settings) (s : DocState) : DocState :=
  if value.trim = "" then { s with textEditor := none }
  else
    { s with
      ops := s.ops ++ [Op.text
        { text := value
          x := ed.1
          y := ed.2
          color := cfg.color
          size := max 12 (cfg.size * 6)
          font := "Inter, ui-sans-serif, system-ui, -apple-system, Segoe UI, Roboto, sans-serif"
          layer := s.currentLayer }]
      textEditor := none }

/-! ## Image import -/

/-- The `img.onload` callback of `handleImageImport`: scale the bitmap to
fit the canvas (never upscaling), center it, and append an `ImageOp`. -/
noncomputable def imageOnload (img : Img) (canvasW canvasH : ℝ) (s : DocState) : DocState :=
  let scale := min (min (canvasW / img.width) (canvasH / img.height)) 1
  let iw := img.width * scale
  let ih := img.height * scale
  { s with ops := s.ops ++ [Op.image
    { img := img
      x := (canvasW - iw) / 2
      y := (canvasH - ih) / 2
      w := iw
      h := ih
      layer := s.currentLayer }] }

/-! ## Serialization: loading -/

/-- Outcome of `JSON.parse` on the loaded file, as far as
`handleLoadJSON` inspects it: parsing either throws, or produces a value
that is an array (whose elements the source casts to `Op[]` unchecked)
or some non-array value. -/
inductive ParsedJSON where
  | arr (elts : List Op)
  | nonArray

/-- `handleLoadJSON` after the file has been read and parsed.  The
returned flag records whether the user-visible failure alert was shown
(`alert("Invalid JSON file")`). -/
def handleLoadJSON (parsed : Except String ParsedJSON) (s : DocState) : DocState × Bool :=
  match parsed with
  | .error _ => (s, true)
  | .ok .nonArray => (s, true)
  | .ok (.arr elts) => ({ s with ops := elts, redo := ([] : List Op) }, false)

/-! ## Layers -/

/-- `deleteLayer(id)`. -/
def deleteLayer (id : ℕ) (s : DocState) : DocState :=
  if s.layers.length ≤ 1 then s
  else
    let remaining := s.layers.filter (fun l => l.id ≠ id)
    { s with
      layers := remaining
      ops := s.ops.filter (fun op => op.layer ≠ id)
      currentLayer :=
        if s.currentLayer = id then
          match remaining.head? with
          | some l => l.id
          | none => 0
        else s.currentLayer }

/-! ## Renderer dispatch -/

/-- One canvas paint call issued by `renderAll`, with the composite
operation and global alpha in effect when the op is painted. -/
structure PaintCmd where
  composite : String
  alpha : ℝ
  op : Op

/-- The paint calls `renderAll` issues for one visible layer: the ops of
that layer, in insertion order; images and text paint with the layer
opacity and normal blending, strokes and shapes with the op composite and
`op.alpha * layer.opacity`. -/
noncomputable def layerCmds (layer : Layer) (ops : List Op) : List PaintCmd :=
  (ops.filter (fun op => op.layer = layer.id)).map fun op =>
    match op with
    | .image i => { composite := "source-over", alpha := layer.opacity, op := .image i }
    | .text t => { composite := "source-over", alpha := layer.opacity, op := .text t }
    | .stroke st => { composite := st.composite, alpha := st.alpha * layer.opacity, op := .stroke st }
    | .shape sh => { composite := sh.composite, alpha := sh.alpha * layer.opacity, op := .shape sh }

/-- The full paint trace of `renderAll`: layers in order, invisible
layers skipped. -/
noncomputable def renderTrace (layers : List Layer) (ops : List Op) : List PaintCmd :=
  layers.flatMap fun l => if l.visible then layerCmds l ops else []

/-! ## Concrete example values (used by witnesses) -/

/-- A committed text op used as a concrete document element. -/
def exOp : Op :=
  Op.text { text := "hi", x := 1, y := 2, color := "#164e63", size := 24, font := "Inter", layer := 0 }

/-- The initial layer `{ id: 0, name: "Layer 1", visible: true, opacity: 1 }`. -/
def exLayer : Layer := { id := 0, name := "Layer 1", visible := true, opacity := 1 }

/-- A document state holding one committed op. -/
def exState : DocState :=
  { ops := [exOp], redo := [], layers := [exLayer], currentLayer := 0, isDrawing := false,
    currentStroke := none, currentShape := none, textEditor := none }

/-- A document state whose redo stack is non-empty. -/
def exRedoState : DocState :=
  { ops := [], redo := [exOp], layers := [exLayer], currentLayer := 0, isDrawing := false,
    currentStroke := none, currentShape := none, textEditor := none }

/-- A decoded 50×40 bitmap. -/
def exImg : Img := { width := 50, height := 40 }

/-- Default-style settings with the pen tool. -/
def exCfg : Settings :=
  { tool := Tool.pen, color := "#164e63", size := 4, alpha := 1, smooth := true,
    brushType := "smooth", shapeAssist := true, shiftKey := false }

/-- The settings with the select tool. -/
def exCfgSelect : Settings := { exCfg with tool := Tool.select }

/-- A concrete pointer position. -/
noncomputable def exPos : Point ℝ := { x := 3, y := 5, p := some (1 / 2) }

/-- A smooth pen stroke with no captured points. -/
def exStroke : StrokeOp :=
  { tool := Tool.pen, color := "#164e63", size := 4, alpha := 1, composite := "source-over",
    points := [], smooth := true, brushType := "smooth", layer := 0 }

/-- The rect of the spec example: drag from `(0,0)` to `(10,4)`. -/
def exRect : ShapeOp :=
  { shape := ShapeKind.rect, color := "#164e63", size := 4, alpha := 1,
    composite := "source-over", x0 := 0, y0 := 0, x1 := 10, y1 := 4, layer := 0 }

/-- The line of the spec example: drag from `(0,0)` to `(10,4)`. -/
def exLine : ShapeOp := { exRect with shape := ShapeKind.line }

/-! ## Geometry lemmas -/

lemma sq_nonneg_self (n : K) : 0 ≤ sq n := mul_self_nonneg n

lemma distSqToSegment_nonneg (p a b : Point K) : 0 ≤ distSqToSegment p a b := by
  unfold distSqToSegment
  dsimp only
  split_ifs <;> exact add_nonneg (sq_nonneg_self _) (sq_nonneg_self _)

lemma distSqToSegment_left (a b : Point K) : distSqToSegment a a b = 0 := by
  simp [distSqToSegment, sq]

lemma distSqToSegment_right (a b : Point K) : distSqToSegment b a b = 0 := by
  unfold distSqToSegment
  dsimp only
  split_ifs with h1 h2
  · have hx : (0:K) ≤ (b.x - a.x) * (b.x - a.x) := mul_self_nonneg _
    have hy : (0:K) ≤ (b.y - a.y) * (b.y - a.y) := mul_self_nonneg _
    simp only [sq]
    nlinarith
  · simp [sq]
  · exact absurd le_rfl h2

/-- Generic form of the `maxPerp` fold: running maximum of `f (j + 1)` for
`j < n`, with the index recorded, starting from `(0, 0)`. -/
def fMax (f : ℕ → K) (n : ℕ) : ℕ × K :=
  (List.range n).foldl
    (fun acc j => if acc.2 < f (j + 1) then (j + 1, f (j + 1)) else acc) (0, 0)

/-- Invariant of the `maxPerp` fold: the accumulator either is still the
initial `(0, 0)` or records an index in range together with its distance,
and the recorded distance dominates every scanned distance. -/
lemma fMax_spec (f : ℕ → K) (n : ℕ) :
    (fMax f n = ((0 : ℕ), (0 : K)) ∨
      (1 ≤ (fMax f n).1 ∧ (fMax f n).1 ≤ n ∧ f (fMax f n).1 = (fMax f n).2)) ∧
    ∀ j < n, f (j + 1) ≤ (fMax f n).2 := by
  induction n with
  | zero => simp [fMax]
  | succ n ih =>
    obtain ⟨ihcase, ihle⟩ := ih
    have hstep : fMax f (n + 1) =
        (if (fMax f n).2 < f (n + 1) then (n + 1, f (n + 1)) else fMax f n) := by
      unfold fMax
      rw [List.range_succ, List.foldl_append, List.foldl_cons, List.foldl_nil]
    by_cases hup : (fMax f n).2 < f (n + 1)
    · rw [hstep, if_pos hup]
      refine ⟨Or.inr ⟨by omega, by omega, rfl⟩, ?_⟩
      intro j hj
      rcases Nat.lt_succ_iff_lt_or_eq.mp hj with hj | hj
      · exact le_of_lt (lt_of_le_of_lt (ihle j hj) hup)
      · subst hj; exact le_rfl
    · rw [hstep, if_neg hup]
      refine ⟨?_, ?_⟩
      · rcases ihcase with h | ⟨h1, h2, h3⟩
        · exact Or.inl h
        · exact Or.inr ⟨h1, by omega, h3⟩
      · intro j hj
        rcases Nat.lt_succ_iff_lt_or_eq.mp hj with hj | hj
        · exact ihle j hj
        · subst hj; exact le_of_not_lt hup

lemma maxPerp_eq_fMax (pts : List (Point K)) :
    maxPerp pts = fMax
      (fun i => distSqToSegment (pts.getD i default) (pts.getD 0 default)
        (pts.getD (pts.length - 1) default)) (pts.length - 1 - 1) := rfl

lemma maxPerp_cases (pts : List (Point K)) :
    maxPerp pts = ((0 : ℕ), (0 : K)) ∨
      (1 ≤ (maxPerp pts).1 ∧ (maxPerp pts).1 ≤ pts.length - 1 - 1 ∧
        distSqToSegment (pts.getD (maxPerp pts).1 default) (pts.getD 0 default)
          (pts.getD (pts.length - 1) default) = (maxPerp pts).2) := by
  rw [maxPerp_eq_fMax]
  exact (fMax_spec _ _).1

lemma maxPerp_le (pts : List (Point K)) :
    ∀ i, 1 ≤ i → i < pts.length - 1 →
      distSqToSegment (pts.getD i default) (pts.getD 0 default)
        (pts.getD (pts.length - 1) default) ≤ (maxPerp pts).2 := by
  intro i h1 h2
  rw [maxPerp_eq_fMax]
  have h := (fMax_spec
    (fun i => distSqToSegment (pts.getD i default) (pts.getD 0 default)
      (pts.getD (pts.length - 1) default)) (pts.length - 1 - 1)).2
  have := h (i - 1) (by omega)
  simpa [Nat.sub_add_cancel h1] using this

/-! ## List helper lemmas -/

lemma head?_eq_getD {α : Type} [Inhabited α] (l : List α) (h : l ≠ []) :
    l.head? = some (l.getD 0 default) := by
  cases l with
  | nil => exact absurd rfl h
  | cons a t => rfl

lemma getLast?_eq_getD {α : Type} [Inhabited α] (l : List α) (h : l ≠ []) :
    l.getLast? = some (l.getD (l.length - 1) default) := by
  have hpos : 0 < l.length := List.length_pos.mpr h
  have hlt : l.length - 1 < l.length := by omega
  rw [List.getLast?_eq_getElem?, List.getElem?_eq_getElem hlt, List.getD_eq_getElem _ _ hlt]

lemma getD_mem {α : Type} [Inhabited α] (l : List α) (n : ℕ) (h : n < l.length) :
    l.getD n default ∈ l := by
  rw [List.getD_eq_getElem _ _ h]
  exact List.getElem_mem h

lemma head?_dropLast {α : Type} (l : List α) (h : 2 ≤ l.length) :
    l.dropLast.head? = l.head? := by
  cases l with
  | nil => simp at h
  | cons a t =>
    cases t with
    | nil => simp at h
    | cons b t' => simp [List.dropLast_cons₂]

lemma head?_take_succ {α : Type} (l : List α) (n : ℕ) : (l.take (n + 1)).head? = l.head? := by
  cases l <;> rfl

lemma getLast?_take_getD {α : Type} [Inhabited α] (l : List α) (idx : ℕ) (h : idx < l.length) :
    (l.take (idx + 1)).getLast? = some (l.getD idx default) := by
  have hlen : (l.take (idx + 1)).length = idx + 1 := by
    rw [List.length_take]
    omega
  have hne : l.take (idx + 1) ≠ [] := by
    intro hc
    rw [hc] at hlen
    simp at hlen
  rw [getLast?_eq_getD _ hne, hlen]
  have hlt : idx + 1 - 1 < (l.take (idx + 1)).length := by omega
  rw [List.getD_eq_getElem _ _ hlt, List.getD_eq_getElem _ _ h]
  simp [List.getElem_take]

lemma head?_drop_getD {α : Type} [Inhabited α] (l : List α) (idx : ℕ) (h : idx < l.length) :
    (l.drop idx).head? = some (l.getD idx default) := by
  rw [List.head?_eq_getElem?, List.getElem?_drop, Nat.add_zero,
    List.getElem?_eq_getElem h, List.getD_eq_getElem _ _ h]

lemma getLast?_drop_eq {α : Type} (l : List α) (idx : ℕ) (h : idx < l.length) :
    (l.drop idx).getLast? = l.getLast? := by
  have hne : l.drop idx ≠ [] := by
    intro hc
    have := congrArg List.length hc
    simp only [List.length_drop, List.length_nil] at this
    omega
  conv_rhs => rw [← List.take_append_drop idx l]
  rw [List.getLast?_append]
  cases hx : (l.drop idx).getLast? with
  | none => exact absurd (List.getLast?_eq_none_iff.mp hx) hne
  | some x => simp

lemma adjacent_append_left {α : Type} (l₁ l₂ : List α) (a b : α) (h : Adjacent l₂ a b) :
    Adjacent (l₁ ++ l₂) a b := by
  obtain ⟨m₁, m₂, rfl⟩ := h
  exact ⟨l₁ ++ m₁, m₂, by simp⟩

lemma adjacent_pair {α : Type} (a b : α) : Adjacent [a, b] a b := ⟨[], [], rfl⟩

lemma adjacent_glue {α : Type} (r1 r2 : List α) (m : α) (h1 : r1.getLast? = some m)
    (h2 : r2.head? = some m) (a b : α) (h : Adjacent r1 a b) :
    Adjacent (r1.dropLast ++ r2) a b := by
  obtain ⟨m₁, m₂, rfl⟩ := h
  rcases List.eq_nil_or_concat m₂ with rfl | ⟨m₂', z, rfl⟩
  · have hb : b = m := by
      rw [show m₁ ++ a :: b :: [] = (m₁ ++ [a]) ++ [b] by simp,
        List.getLast?_concat] at h1
      injection h1
    obtain ⟨t, rfl⟩ : ∃ t, r2 = b :: t := by
      cases r2 with
      | nil => simp at h2
      | cons c t =>
        refine ⟨t, ?_⟩
        have hc : c = m := by
          rw [show (c :: t).head? = some c from rfl] at h2
          injection h2
        rw [hc, hb]
    refine ⟨m₁, t, ?_⟩
    rw [show m₁ ++ a :: b :: [] = (m₁ ++ [a]) ++ [b] by simp, List.dropLast_concat]
    simp
  · refine ⟨m₁, m₂' ++ r2, ?_⟩
    rw [show m₁ ++ a :: b :: m₂'.concat z = (m₁ ++ a :: b :: m₂') ++ [z] by
      simp [List.concat_eq_append], List.dropLast_concat]
    simp

/-! ## RDP simplification lemmas -/

lemma rdp_spec (epsSq : K) (h0 : 0 ≤ epsSq) :
    ∀ (fuel : ℕ) (pts : List (Point K)), pts.length ≤ fuel → 2 ≤ pts.length →
      (rdp fuel pts epsSq).head? = pts.head? ∧
      (rdp fuel pts epsSq).getLast? = pts.getLast? ∧
      2 ≤ (rdp fuel pts epsSq).length ∧
      (∀ q ∈ rdp fuel pts epsSq, q ∈ pts) ∧
      (∀ q ∈ pts, ∃ a b, Adjacent (rdp fuel pts epsSq) a b ∧ distSqToSegment q a b ≤ epsSq) := by
  intro fuel
  induction fuel with
  | zero => intro pts hfuel h2; omega
  | succ fuel ih =>
    intro pts hfuel h2
    have hne : pts ≠ [] := by
      intro hc
      rw [hc] at h2
      simp at h2
    have hrdp : rdp (fuel + 1) pts epsSq =
        (if epsSq < (maxPerp pts).2 then
          (rdp fuel (pts.take ((maxPerp pts).1 + 1)) epsSq).dropLast
            ++ rdp fuel (pts.drop (maxPerp pts).1) epsSq
        else [pts.getD 0 default, pts.getD (pts.length - 1) default]) := rfl
    by_cases hsplit : epsSq < (maxPerp pts).2
    · -- split case
      rw [hrdp, if_pos hsplit]
      rcases maxPerp_cases pts with hzero | ⟨hi1, hi2, _⟩
      · exfalso
        rw [hzero] at hsplit
        simp only at hsplit
        linarith
      · have hidxn : (maxPerp pts).1 < pts.length := by omega
        obtain ⟨ih1a, ih1b, ih1c, ih1d, ih1e⟩ :=
          ih (pts.take ((maxPerp pts).1 + 1))
            (by rw [List.length_take]; omega) (by rw [List.length_take]; omega)
        obtain ⟨ih2a, ih2b, ih2c, ih2d, ih2e⟩ :=
          ih (pts.drop (maxPerp pts).1)
            (by rw [List.length_drop]; omega) (by rw [List.length_drop]; omega)
        have hr1last : (rdp fuel (pts.take ((maxPerp pts).1 + 1)) epsSq).getLast?
            = some (pts.getD (maxPerp pts).1 default) := by
          rw [ih1b]
          exact getLast?_take_getD pts _ hidxn
        have hr2head : (rdp fuel (pts.drop (maxPerp pts).1) epsSq).head?
            = some (pts.getD (maxPerp pts).1 default) := by
          rw [ih2a]
          exact head?_drop_getD pts _ hidxn
        refine ⟨?_, ?_, ?_, ?_, ?_⟩
        · rw [List.head?_append, head?_dropLast _ ih1c, ih1a, head?_take_succ,
            head?_eq_getD pts hne]
          rfl
        · rw [List.getLast?_append, ih2b, getLast?_drop_eq pts _ hidxn,
            getLast?_eq_getD pts hne]
          rfl
        · rw [List.length_append, List.length_dropLast]
          omega
        · intro q hq
          rcases List.mem_append.mp hq with h | h
          · exact List.take_subset _ _ (ih1d q (List.dropLast_subset _ h))
          · exact List.drop_subset _ _ (ih2d q h)
        · intro q hq
          have hqsplit : q ∈ pts.take ((maxPerp pts).1 + 1) ∨ q ∈ pts.drop (maxPerp pts).1 := by
            have hq2 : q ∈ pts.take ((maxPerp pts).1 + 1) ++ pts.drop ((maxPerp pts).1 + 1) := by
              rw [List.take_append_drop]
              exact hq
            rcases List.mem_append.mp hq2 with h | h
            · exact Or.inl h
            · refine Or.inr ?_
              have hdd : pts.drop ((maxPerp pts).1 + 1) = (pts.drop (maxPerp pts).1).drop 1 := by
                rw [List.drop_drop]
              rw [hdd] at h
              exact List.drop_subset _ _ h
          rcases hqsplit with h | h
          · obtain ⟨a, b, hadj, hdist⟩ := ih1e q h
            exact ⟨a, b, adjacent_glue _ _ _ hr1last hr2head a b hadj, hdist⟩
          · obtain ⟨a, b, hadj, hdist⟩ := ih2e q h
            exact ⟨a, b, adjacent_append_left _ _ a b hadj, hdist⟩
    · -- collapse case
      rw [hrdp, if_neg hsplit]
      refine ⟨?_, ?_, ?_, ?_, ?_⟩
      · rw [head?_eq_getD pts hne]
        rfl
      · rw [getLast?_eq_getD pts hne]
        simp
      · simp
      · intro q hq
        simp only [List.mem_cons, List.not_mem_nil, or_false] at hq
        rcases hq with rfl | rfl
        · exact getD_mem pts 0 (by omega)
        · exact getD_mem pts (pts.length - 1) (by omega)
      · intro q hq
        obtain ⟨i, hi, rfl⟩ := List.mem_iff_getElem.mp hq
        refine ⟨pts.getD 0 default, pts.getD (pts.length - 1) default,
          adjacent_pair _ _, ?_⟩
        rcases eq_or_ne i 0 with rfl | hi0
        · rw [← List.getD_eq_getElem _ _ hi]
          rw [show pts.getD 0 default = pts.getD 0 default from rfl]
          rw [distSqToSegment_left]
          exact h0
        · rcases eq_or_ne i (pts.length - 1) with rfl | hie
          · rw [← List.getD_eq_getElem _ _ hi, distSqToSegment_right]
            exact h0
          · have hle := maxPerp_le pts i (by omega) (by omega)
            rw [← List.getD_eq_getElem _ _ hi]
            exact le_trans hle (not_lt.mp hsplit)

/-! ## Shape constraint lemmas -/

lemma snaps_bounds : ∀ a ∈ snaps, -(3 * π / 4) ≤ a ∧ a ≤ π := by
  have hπ := Real.pi_pos
  intro a ha
  simp only [snaps, List.mem_cons, List.not_mem_nil, or_false] at ha
  rcases ha with rfl | rfl | rfl | rfl | rfl | rfl | rfl | rfl <;> constructor <;> linarith

lemma snaps_mem_Ioc : ∀ a ∈ snaps, a ∈ Set.Ioc (-π) π := by
  have hπ := Real.pi_pos
  intro a ha
  obtain ⟨h1, h2⟩ := snaps_bounds a ha
  exact ⟨by linarith, h2⟩

lemma snaps_sub_lt (a b : ℝ) (ha : a ∈ snaps) (hb : b ∈ snaps) : |a - b| < 2 * π := by
  have hπ := Real.pi_pos
  obtain ⟨ha1, ha2⟩ := snaps_bounds a ha
  obtain ⟨hb1, hb2⟩ := snaps_bounds b hb
  rw [abs_sub_lt_iff]
  constructor <;> linarith

lemma wrap_eq (t : ℝ) (ht : t ∈ Set.Ioc (-π) π) :
    atan2 (Real.sin t) (Real.cos t) = t := by
  unfold atan2
  rw [Complex.ofReal_cos, Complex.ofReal_sin]
  exact Complex.arg_cos_add_sin_mul_I ht

lemma snapDist_eq_abs (θ a : ℝ) (h : θ - a ∈ Set.Ioc (-π) π) : snapDist θ a = |θ - a| := by
  unfold snapDist
  rw [wrap_eq _ h]

lemma snapDist_nonneg (θ a : ℝ) : 0 ≤ snapDist θ a := abs_nonneg _

lemma snapDist_self (b : ℝ) : snapDist b b = 0 := by
  have h0 : (0 : ℝ) ∈ Set.Ioc (-π) π := ⟨by linarith [Real.pi_pos], Real.pi_pos.le⟩
  unfold snapDist
  rw [sub_self, wrap_eq 0 h0, abs_zero]

lemma atan2_polar (r b : ℝ) (hr : 0 < r) (hb : b ∈ Set.Ioc (-π) π) :
    atan2 (r * Real.sin b) (r * Real.cos b) = b := by
  unfold atan2
  have hcast : ((r * Real.cos b : ℝ) : ℂ) + ((r * Real.sin b : ℝ) : ℂ) * Complex.I
      = (r : ℂ) * (Complex.cos (b : ℂ) + Complex.sin (b : ℂ) * Complex.I) := by
    push_cast
    rw [← Complex.ofReal_cos, ← Complex.ofReal_sin]
    ring
  rw [hcast]
  exact Complex.arg_mul_cos_add_sin_mul_I hr hb

lemma snapDist_pos (θ a : ℝ) (hne : θ ≠ a) (hlt : |θ - a| < 2 * π) : 0 < snapDist θ a := by
  have hπ := Real.pi_pos
  rcases (snapDist_nonneg θ a).lt_or_eq with h | h
  · exact h
  exfalso
  have harg : Complex.arg (((Real.cos (θ - a) : ℝ) : ℂ) + ((Real.sin (θ - a) : ℝ) : ℂ)
      * Complex.I) = 0 := by
    have := h.symm
    unfold snapDist atan2 at this
    exact abs_eq_zero.mp this
  obtain ⟨hre, him⟩ := Complex.arg_eq_zero_iff.mp harg
  simp only [Complex.add_re, Complex.ofReal_re, Complex.mul_re, Complex.I_re, Complex.I_im,
    Complex.ofReal_im, Complex.add_im, Complex.mul_im, mul_zero, mul_one, zero_sub, sub_zero,
    neg_zero, add_zero, zero_add, zero_mul] at hre him
  rw [Real.sin_eq_zero_iff] at him
  obtain ⟨n, hn⟩ := him
  have habs : |(n : ℝ)| * π < 2 * π := by
    rw [← abs_of_pos hπ, ← abs_mul, hn]
    rwa [abs_of_pos hπ]
  have hn2 : |(n : ℝ)| < 2 := (mul_lt_mul_right hπ).mp habs
  have hn3 : n = -1 ∨ n = 0 ∨ n = 1 := by
    have h4 : ((|n| : ℤ) : ℝ) < 2 := by rwa [Int.cast_abs]
    have h5 : |n| < 2 := by exact_mod_cast h4
    rw [abs_lt] at h5
    omega
  rcases hn3 with rfl | rfl | rfl
  · have hval : θ - a = -π := by
      rw [← hn]
      push_cast
      ring
    rw [hval, Real.cos_neg, Real.cos_pi] at hre
    linarith
  · apply hne
    have : θ - a = 0 := by
      rw [← hn]
      push_cast
      ring
    linarith
  · have hval : θ - a = π := by
      rw [← hn]
      push_cast
      ring
    rw [hval, Real.cos_pi] at hre
    linarith

lemma snapFold_spec (θ : ℝ) : ∀ (l : List ℝ) (acc : ℝ × WithTop ℝ),
    (l.foldl (snapStep θ) acc = acc ∨
      ((l.foldl (snapStep θ) acc).1 ∈ l ∧
        ((snapDist θ (l.foldl (snapStep θ) acc).1 : ℝ) : WithTop ℝ)
          = (l.foldl (snapStep θ) acc).2)) ∧
    (l.foldl (snapStep θ) acc).2 ≤ acc.2 ∧
    ∀ a ∈ l, (l.foldl (snapStep θ) acc).2 ≤ ((snapDist θ a : ℝ) : WithTop ℝ) := by
  intro l
  induction l with
  | nil => intro acc; simp
  | cons a t ih =>
    intro acc
    rw [List.foldl_cons]
    obtain ⟨ihcase, ihle, ihall⟩ := ih (snapStep θ acc a)
    have hstep2 : (snapStep θ acc a).2 ≤ acc.2 := by
      unfold snapStep
      split_ifs with hc
      · exact le_of_lt hc
      · exact le_rfl
    have hstepd : (snapStep θ acc a).2 ≤ ((snapDist θ a : ℝ) : WithTop ℝ) := by
      unfold snapStep
      split_ifs with hc
      · exact le_rfl
      · exact le_of_not_lt hc
    refine ⟨?_, le_trans ihle hstep2, ?_⟩
    · rcases ihcase with heq | ⟨hmem, hd⟩
      · rw [heq]
        unfold snapStep
        split_ifs with hc
        · exact Or.inr ⟨List.mem_cons_self a t, rfl⟩
        · exact Or.inl rfl
      · exact Or.inr ⟨List.mem_cons_of_mem a hmem, hd⟩
    · intro x hx
      rcases List.mem_cons.mp hx with rfl | hx
      · exact le_trans ihle hstepd
      · exact ihall x hx

lemma snapFold_frozen (θ : ℝ) : ∀ (l : List ℝ) (acc : ℝ × WithTop ℝ),
    (∀ a ∈ l, ¬ (((snapDist θ a : ℝ) : WithTop ℝ) < acc.2)) →
    l.foldl (snapStep θ) acc = acc := by
  intro l
  induction l with
  | nil => intro acc _; rfl
  | cons a t ih =>
    intro acc hall
    rw [List.foldl_cons]
    have hstep : snapStep θ acc a = acc := by
      unfold snapStep
      rw [if_neg (hall a (List.mem_cons_self a t))]
    rw [hstep]
    exact ih acc fun x hx => hall x (List.mem_cons_of_mem a hx)

lemma snapFold_zero (θ b : ℝ) (hd : snapDist θ b = 0) :
    ∀ (l : List ℝ) (acc : ℝ × WithTop ℝ), b ∈ l →
    (∀ a ∈ l, snapDist θ a = 0 → a = b) →
    (((0 : ℝ) : WithTop ℝ) < acc.2) →
    l.foldl (snapStep θ) acc = (b, ((0 : ℝ) : WithTop ℝ)) := by
  intro l
  induction l with
  | nil => intro acc hmem; exact absurd hmem (List.not_mem_nil b)
  | cons a t ih =>
    intro acc hmem huniq hacc
    rw [List.foldl_cons]
    rcases eq_or_ne a b with rfl | hab
    · have hstep : snapStep θ acc a = (a, ((0 : ℝ) : WithTop ℝ)) := by
        unfold snapStep
        rw [hd, if_pos hacc]
      rw [hstep]
      exact snapFold_frozen θ t (a, ((0 : ℝ) : WithTop ℝ)) fun x hx => by
        simp only [WithTop.coe_lt_coe, not_lt]
        exact snapDist_nonneg θ x
    · have hbt : b ∈ t := by
        rcases List.mem_cons.mp hmem with rfl | hbt
        · exact absurd rfl hab
        · exact hbt
      have hda : snapDist θ a ≠ 0 := fun h0 =>
        hab (huniq a (List.mem_cons_self a t) h0)
      have hdapos : (0 : ℝ) < snapDist θ a := lt_of_le_of_ne (snapDist_nonneg θ a) (Ne.symm hda)
      have hacc2 : ((0 : ℝ) : WithTop ℝ) < (snapStep θ acc a).2 := by
        unfold snapStep
        split_ifs with hc
        · simpa using hdapos
        · exact hacc
      exact ih (snapStep θ acc a) hbt
        (fun x hx h0 => huniq x (List.mem_cons_of_mem a hx) h0) hacc2

lemma snaps_ne_nil : (0 : ℝ) ∈ snaps := by
  simp [snaps]

lemma snapBest_mem (θ : ℝ) :
    snapBest θ ∈ snaps ∧ ∀ a ∈ snaps, snapDist θ (snapBest θ) ≤ snapDist θ a := by
  obtain ⟨hcase, hle, hall⟩ := snapFold_spec θ snaps ((0 : ℝ), (⊤ : WithTop ℝ))
  rcases hcase with heq | ⟨hmem, hd⟩
  · exfalso
    have h0 := hall 0 snaps_ne_nil
    rw [heq] at h0
    exact absurd h0 (by simp)
  · refine ⟨hmem, ?_⟩
    intro a ha
    have h2 := hall a ha
    rw [← hd] at h2
    exact_mod_cast h2

lemma snapBest_fixed (b : ℝ) (hb : b ∈ snaps) : snapBest b = b := by
  have huniq : ∀ a ∈ snaps, snapDist b a = 0 → a = b := by
    intro a ha h0
    by_contra hab
    have hpos := snapDist_pos b a (fun he => hab (he.symm)) (snaps_sub_lt b a hb ha)
    exact absurd h0 (ne_of_gt hpos)
  unfold snapBest
  rw [snapFold_zero b b (snapDist_self b) snaps ((0 : ℝ), (⊤ : WithTop ℝ)) hb huniq (by simp)]

lemma constrain_not_shift (s : ShapeOp) : constrainWithShift s false = s := rfl

lemma constrain_box_eval (s : ShapeOp) (h : ¬s.shape = ShapeKind.line) :
    constrainWithShift s true = { s with
      x1 := s.x0 + Real.sign (s.x1 - s.x0) * min |s.x1 - s.x0| |s.y1 - s.y0|
      y1 := s.y0 + Real.sign (s.y1 - s.y0) * min |s.x1 - s.x0| |s.y1 - s.y0| } := by
  unfold constrainWithShift
  simp only [Bool.not_true, Bool.false_eq_true, if_false, if_neg h]

lemma constrain_line_eval (s : ShapeOp) (h : s.shape = ShapeKind.line) :
    constrainWithShift s true = { s with
      x1 := s.x0 + Real.sqrt ((s.x1 - s.x0) ^ 2 + (s.y1 - s.y0) ^ 2)
        * Real.cos (snapBest (atan2 (s.y1 - s.y0) (s.x1 - s.x0)))
      y1 := s.y0 + Real.sqrt ((s.x1 - s.x0) ^ 2 + (s.y1 - s.y0) ^ 2)
        * Real.sin (snapBest (atan2 (s.y1 - s.y0) (s.x1 - s.x0))) } := by
  unfold constrainWithShift
  simp only [Bool.not_true, Bool.false_eq_true, if_false, if_pos h]

lemma abs_sign_mul_min (u v : ℝ) :
    abs (Real.sign u * min (abs u) (abs v)) = min (abs u) (abs v) := by
  rcases eq_or_ne u 0 with rfl | hu
  · rw [abs_zero, min_eq_left (abs_nonneg v), mul_zero, abs_zero]
  · have h1 : abs (Real.sign u) = 1 := by
      rcases hu.lt_or_lt with h | h
      · rw [Real.sign_of_neg h]; norm_num
      · rw [Real.sign_of_pos h]; norm_num
    rw [abs_mul, h1, one_mul, abs_of_nonneg (le_min (abs_nonneg u) (abs_nonneg v))]

lemma abs_sign_mul_min2 (u v : ℝ) :
    abs (Real.sign v * min (abs u) (abs v)) = min (abs u) (abs v) := by
  rw [min_comm]
  exact abs_sign_mul_min v u

lemma sign_sign_mul (u m : ℝ) (hm : 0 ≤ m) :
    Real.sign (Real.sign u * m) * m = Real.sign u * m := by
  rcases hm.lt_or_eq with hm' | hm'
  · rcases lt_trichotomy u 0 with h | rfl | h
    · rw [Real.sign_of_neg h, neg_one_mul, Real.sign_of_neg (by linarith : -m < 0), neg_one_mul]
    · rw [Real.sign_zero, zero_mul, Real.sign_zero, zero_mul]
    · rw [Real.sign_of_pos h, one_mul, Real.sign_of_pos hm', one_mul]
  · rw [← hm']
    simp

lemma constrain_box_idem (s : ShapeOp) (h : ¬s.shape = ShapeKind.line) :
    constrainWithShift (constrainWithShift s true) true = constrainWithShift s true := by
  have e1 := constrain_box_eval s h
  have h2 : ¬(constrainWithShift s true).shape = ShapeKind.line := by rw [e1]; exact h
  rw [constrain_box_eval _ h2, e1]
  dsimp only
  simp only [add_sub_cancel_left]
  have hm : (0 : ℝ) ≤ min (abs (s.x1 - s.x0)) (abs (s.y1 - s.y0)) :=
    le_min (abs_nonneg _) (abs_nonneg _)
  rw [abs_sign_mul_min, abs_sign_mul_min2, min_self, sign_sign_mul _ _ hm, sign_sign_mul _ _ hm]

lemma constrain_line_idem (s : ShapeOp) (h : s.shape = ShapeKind.line) :
    constrainWithShift (constrainWithShift s true) true = constrainWithShift s true := by
  have e1 := constrain_line_eval s h
  have h2 : (constrainWithShift s true).shape = ShapeKind.line := by rw [e1]; exact h
  rw [constrain_line_eval _ h2, e1]
  dsimp only
  simp only [add_sub_cancel_left]
  set dx := s.x1 - s.x0 with hdx
  set dy := s.y1 - s.y0 with hdy
  set θ := atan2 dy dx with hθ
  set b := snapBest θ with hb
  set len := Real.sqrt (dx ^ 2 + dy ^ 2) with hlen
  rcases (Real.sqrt_nonneg (dx ^ 2 + dy ^ 2)).lt_or_eq with hpos | hzero
  · rw [← hlen] at hpos
    have hb_mem : b ∈ snaps := (snapBest_mem θ).1
    have hIoc : b ∈ Set.Ioc (-π) π := snaps_mem_Ioc b hb_mem
    have hθ2 : atan2 (len * Real.sin b) (len * Real.cos b) = b := atan2_polar len b hpos hIoc
    have hlen2 : Real.sqrt ((len * Real.cos b) ^ 2 + (len * Real.sin b) ^ 2) = len := by
      have h1 : (len * Real.cos b) ^ 2 + (len * Real.sin b) ^ 2 = len ^ 2 := by
        have h2 := Real.sin_sq_add_cos_sq b
        nlinarith [h2]
      rw [h1, Real.sqrt_sq hpos.le]
    rw [hθ2, hlen2, snapBest_fixed b hb_mem]
  · have hz : len = 0 := by rw [hlen, ← hzero]
    rw [hz]
    simp [Real.sqrt_zero]

lemma sqrt_mul_cos_sin (len b : ℝ) (hlen : 0 ≤ len) :
    Real.sqrt ((len * Real.cos b) ^ 2 + (len * Real.sin b) ^ 2) = len := by
  have h1 : (len * Real.cos b) ^ 2 + (len * Real.sin b) ^ 2 = len ^ 2 := by
    nlinarith [Real.sin_sq_add_cos_sq b]
  rw [h1, Real.sqrt_sq hlen]

lemma tan_pi_div_eight_gt : 2 / 5 < Real.tan (π / 8) := by
  have hπ := Real.pi_pos
  have hcos_pos : 0 < Real.cos (π / 8) :=
    Real.cos_pos_of_mem_Ioo ⟨by linarith, by linarith⟩
  have hsin_pos : 0 < Real.sin (π / 8) :=
    Real.sin_pos_of_pos_of_lt_pi (by linarith) (by linarith)
  have hcos_sq : Real.cos (π / 8) ^ 2 = 1 / 2 + Real.sqrt 2 / 4 := by
    have h := Real.cos_sq (π / 8)
    rw [show 2 * (π / 8) = π / 4 by ring, Real.cos_pi_div_four] at h
    rw [h]
    ring
  have hsin_sq : Real.sin (π / 8) ^ 2 = 1 / 2 - Real.sqrt 2 / 4 := by
    have h := Real.sin_sq (π / 8)
    rw [h, hcos_sq]
    ring
  have hs2 : Real.sqrt 2 ^ 2 = 2 := Real.sq_sqrt (by norm_num)
  have hs_pos : (0 : ℝ) < Real.sqrt 2 := Real.sqrt_pos.mpr (by norm_num)
  have hkey : (2 / 5 * Real.cos (π / 8)) ^ 2 < Real.sin (π / 8) ^ 2 := by
    rw [mul_pow, hcos_sq, hsin_sq]
    nlinarith [hs2, hs_pos, sq_nonneg (Real.sqrt 2 - 42 / 29)]
  have h1 : 2 / 5 * Real.cos (π / 8) < Real.sin (π / 8) :=
    lt_of_pow_lt_pow_left 2 hsin_pos.le hkey
  rw [Real.tan_eq_sin_div_cos, lt_div_iff hcos_pos]
  linarith

lemma atan2_ex_bounds : 0 < atan2 4 10 ∧ atan2 4 10 < π / 8 := by
  have hπ := Real.pi_pos
  set z : ℂ := ((10 : ℝ) : ℂ) + ((4 : ℝ) : ℂ) * Complex.I with hz
  have hre : z.re = 10 := by simp [hz]
  have him : z.im = 4 := by simp [hz]
  have hform : atan2 4 10 = Complex.arg z := rfl
  have h1 : 0 ≤ Complex.arg z := Complex.arg_nonneg_iff.mpr (by rw [him]; norm_num)
  have hne : Complex.arg z ≠ 0 := by
    intro h0
    obtain ⟨_, h2⟩ := Complex.arg_eq_zero_iff.mp h0
    rw [him] at h2
    norm_num at h2
  have hpos : 0 < Complex.arg z := lt_of_le_of_ne h1 (Ne.symm hne)
  have hlt2 : Complex.arg z < π / 2 :=
    Complex.arg_lt_pi_div_two_iff.mpr (Or.inl (by rw [hre]; norm_num))
  have htan : Real.tan (Complex.arg z) = 4 / 10 := by
    rw [Complex.tan_arg, hre, him]
  rw [hform]
  refine ⟨hpos, ?_⟩
  by_contra hge
  push_neg at hge
  have h8 : π / 8 ∈ Set.Ioo (-(π / 2)) (π / 2) := ⟨by linarith, by linarith⟩
  have hzz : Complex.arg z ∈ Set.Ioo (-(π / 2)) (π / 2) := ⟨by linarith, hlt2⟩
  have h25 := tan_pi_div_eight_gt
  rcases hge.lt_or_eq with hlt | heq
  · have hmono := Real.strictMonoOn_tan h8 hzz hlt
    rw [htan] at hmono
    norm_num at hmono
    linarith
  · rw [← heq] at htan
    rw [htan] at h25
    norm_num at h25

lemma snapBest_small (θ₀ : ℝ) (h0 : 0 < θ₀) (h8 : θ₀ < π / 8) : snapBest θ₀ = 0 := by
  have hπ := Real.pi_pos
  have hd : ∀ a ∈ snaps, snapDist θ₀ a = |θ₀ - a| := by
    intro a ha
    obtain ⟨ha1, ha2⟩ := snaps_bounds a ha
    exact snapDist_eq_abs θ₀ a ⟨by linarith, by linarith⟩
  have hd0 : snapDist θ₀ 0 = θ₀ := by
    rw [hd 0 snaps_ne_nil, sub_zero, abs_of_pos h0]
  have habs : ∀ a : ℝ, π / 4 ≤ a ∨ a ≤ -(π / 4) → θ₀ < |θ₀ - a| := by
    intro a ha
    rcases ha with ha | ha
    · rw [abs_of_neg (by linarith : θ₀ - a < 0)]
      linarith
    · rw [abs_of_pos (by linarith : 0 < θ₀ - a)]
      linarith
  have step1 : snapStep θ₀ ((0 : ℝ), (⊤ : WithTop ℝ)) 0 = ((0 : ℝ), ((θ₀ : ℝ) : WithTop ℝ)) := by
    unfold snapStep
    split_ifs with hc
    · rw [hd0]
    · exfalso
      apply hc
      exact WithTop.coe_lt_top _
  have hstep : ∀ a ∈ snaps, π / 4 ≤ a ∨ a ≤ -(π / 4) →
      snapStep θ₀ ((0 : ℝ), ((θ₀ : ℝ) : WithTop ℝ)) a = ((0 : ℝ), ((θ₀ : ℝ) : WithTop ℝ)) := by
    intro a ha hcase
    unfold snapStep
    split_ifs with hc
    · exfalso
      dsimp only at hc
      rw [WithTop.coe_lt_coe, hd a ha] at hc
      exact absurd hc (not_lt.mpr (le_of_lt (habs a hcase)))
    · rfl
  have hm1 : (π / 4 : ℝ) ∈ snaps := by simp [snaps]
  have hm2 : (π / 2 : ℝ) ∈ snaps := by simp [snaps]
  have hm3 : (3 * π / 4 : ℝ) ∈ snaps := by simp [snaps]
  have hm4 : (π : ℝ) ∈ snaps := by simp [snaps]
  have hm5 : (-(π / 4) : ℝ) ∈ snaps := by simp [snaps]
  have hm6 : (-(π / 2) : ℝ) ∈ snaps := by simp [snaps]
  have hm7 : (-(3 * π / 4) : ℝ) ∈ snaps := by simp [snaps]
  unfold snapBest
  show (List.foldl (snapStep θ₀) ((0 : ℝ), (⊤ : WithTop ℝ))
    [0, π / 4, π / 2, 3 * π / 4, π, -(π / 4), -(π / 2), -(3 * π / 4)]).1 = 0
  simp only [List.foldl_cons, List.foldl_nil]
  rw [step1,
    hstep (π / 4) hm1 (Or.inl le_rfl),
    hstep (π / 2) hm2 (Or.inl (by linarith)),
    hstep (3 * π / 4) hm3 (Or.inl (by linarith)),
    hstep π hm4 (Or.inl (by linarith)),
    hstep (-(π / 4)) hm5 (Or.inr le_rfl),
    hstep (-(π / 2)) hm6 (Or.inr (by linarith)),
    hstep (-(3 * π / 4)) hm7 (Or.inr (by linarith))]

lemma constrain_exLine :
    constrainWithShift exLine true = { exLine with x1 := Real.sqrt 116, y1 := 0 } := by
  have hb := atan2_ex_bounds
  rw [constrain_line_eval exLine rfl]
  simp only [exLine, exRect]
  norm_num
  rw [snapBest_small _ hb.1 hb.2, Real.cos_zero, Real.sin_zero]
  norm_num

/-! ## History lemmas -/

lemma handleUndo_concat (s : DocState) (l : List Op) (o : Op) (h : s.ops = l ++ [o]) :
    handleUndo s = { s with ops := l, redo := o :: s.redo } := by
  have h1 : s.ops.getLast? = some o := by rw [h]; simp
  have h2 : s.ops.dropLast = l := by rw [h]; simp
  unfold handleUndo
  rw [h1, h2]

/-! ## Claim theorems -/

/-- C1: for every committed op sequence of length at least one, `undo`
moves the last element to the front of the redo stack and leaves the
document exactly the remaining prefix, and a subsequent `redo` pops that
front element and appends it, restoring the document (and the whole
state) exactly. -/
theorem C1_undo_redo_inverse (s : DocState) (l : List Op) (o : Op) (h : s.ops = l ++ [o]) :
    handleUndo s = { s with ops := l, redo := o :: s.redo } ∧
    handleRedo (handleUndo s) = s := by
  have hu := handleUndo_concat s l o h
  refine ⟨hu, ?_⟩
  rw [hu]
  unfold handleRedo
  simp only
  rw [← h]

/-- Witness for C1 at a one-op document. -/
theorem C1_witness :
    handleUndo exState = { exState with ops := [], redo := [exOp] } ∧
    handleRedo (handleUndo exState) = exState :=
  C1_undo_redo_inverse exState [] exOp rfl

/-- C2 (amended): the redo stack is emptied by every primary pointer-down
(hence it is empty right after a stroke commit, and after a shape or text
commit provided no undo ran mid-gesture); committing a shape, a text op
or an imported image does not itself touch the redo stack; undo never
empties a non-empty redo stack and redo consumes exactly its front
element. -/
theorem C2_redo_invalidation (pos : Point ℝ) (cfg cfg2 : Settings) (s : DocState)
    (stroke : StrokeOp) (base : ShapeOp) (v : String) (ed : ℝ × ℝ) (img : Img) (w h : ℝ) :
    (pointerDown 0 pos cfg s).redo = [] ∧
    (pointerUpStroke stroke s).redo = s.redo ∧
    (pointerUpShape cfg2 base s).redo = s.redo ∧
    (commitText v ed cfg2 s).redo = s.redo ∧
    (imageOnload img w h s).redo = s.redo ∧
    (s.redo ≠ [] → (handleUndo s).redo ≠ []) ∧
    (handleRedo s).redo = s.redo.drop 1 := by
  refine ⟨?_, ?_, ?_, ?_, ?_, ?_, ?_⟩
  · unfold pointerDown
    simp only [ne_eq, not_true_eq_false, if_false, ite_not]
    split_ifs <;> rfl
  · unfold pointerUpStroke
    split_ifs <;> rfl
  · rfl
  · unfold commitText
    split_ifs <;> rfl
  · rfl
  · intro hne
    unfold handleUndo
    cases hl : s.ops.getLast? <;> simp [hne]
  · unfold handleRedo
    cases hr : s.redo with
    | nil => simp [hr]
    | cons a t => rfl

/-- Witness for C2 at concrete states. -/
theorem C2_witness :
    (handleUndo exRedoState).redo ≠ [] ∧
    (imageOnload exImg 100 100 exRedoState).redo = exRedoState.redo :=
  ⟨(C2_redo_invalidation exPos exCfg exCfg exRedoState
      { tool := Tool.pen, color := "", size := 1, alpha := 1, composite := "source-over",
        points := [], smooth := true, brushType := "smooth", layer := 0 }
      exRect "" (0, 0) exImg 100 100).2.2.2.2.2.1 (by simp [exRedoState]),
    (C2_redo_invalidation exPos exCfg exCfg exRedoState
      { tool := Tool.pen, color := "", size := 1, alpha := 1, composite := "source-over",
        points := [], smooth := true, brushType := "smooth", layer := 0 }
      exRect "" (0, 0) exImg 100 100).2.2.2.2.1⟩

/-- C2 counterexample: committing an imported image leaves a previously
non-empty redo stack non-empty (the source's `handleImageImport` never
clears `redo`), refuting the claim that the redo stack is empty after any
new committed op. -/
theorem C2_counterexample :
    (imageOnload exImg 100 100 exRedoState).ops ≠ exRedoState.ops ∧
    (imageOnload exImg 100 100 exRedoState).redo ≠ [] := by
  constructor
  · intro hcontra
    have := congrArg List.length hcontra
    simp [imageOnload, exRedoState] at this
  · simp [imageOnload, exRedoState]

/-- C7: loading a parse failure or a non-array value reports a
user-visible load error and leaves the whole state untouched, while
loading an array replaces the document by the loaded ops and clears the
redo stack. -/
theorem C7_load_atomicity (parsed : Except String ParsedJSON) (s : DocState) :
    (∀ e, parsed = Except.error e → handleLoadJSON parsed s = (s, true)) ∧
    (parsed = Except.ok ParsedJSON.nonArray → handleLoadJSON parsed s = (s, true)) ∧
    (∀ elts, parsed = Except.ok (ParsedJSON.arr elts) →
      handleLoadJSON parsed s = ({ s with ops := elts, redo := ([] : List Op) }, false)) := by
  refine ⟨?_, ?_, ?_⟩
  · intro e he; subst he; rfl
  · intro he; subst he; rfl
  · intro elts he; subst he; rfl

/-- Witness for C7: loading a concrete one-op array. -/
theorem C7_witness :
    handleLoadJSON (Except.ok (ParsedJSON.arr [exOp])) exRedoState
      = ({ exRedoState with ops := [exOp], redo := ([] : List Op) }, false) :=
  (C7_load_atomicity (Except.ok (ParsedJSON.arr [exOp])) exRedoState).2.2 [exOp] rfl

/-- C8: undo on an empty document, redo on an empty redo stack and
deleting a layer while at most one exists are exact no-ops, and deleting
a layer when more than one exists removes exactly the ops whose layer id
matches. -/
theorem C8_noop_conditions (s : DocState) (id : ℕ) :
    (s.ops = [] → handleUndo s = s) ∧
    (s.redo = [] → handleRedo s = s) ∧
    (s.layers.length ≤ 1 → deleteLayer id s = s) ∧
    (1 < s.layers.length →
      (deleteLayer id s).ops = s.ops.filter (fun op => op.layer ≠ id)) := by
  refine ⟨?_, ?_, ?_, ?_⟩
  · intro h; unfold handleUndo; rw [h]; rfl
  · intro h; unfold handleRedo; rw [h]
  · intro h; unfold deleteLayer; rw [if_pos h]
  · intro h; unfold deleteLayer; rw [if_neg (by omega)]

/-- Witness for C8 at concrete states. -/
theorem C8_witness :
    handleUndo exRedoState = exRedoState ∧
    handleRedo exState = exState ∧
    deleteLayer 0 exState = exState ∧
    (deleteLayer 0 { exState with layers := [exLayer, { exLayer with id := 1 }] }).ops
      = exState.ops.filter (fun op => op.layer ≠ 0) :=
  ⟨(C8_noop_conditions exRedoState 0).1 rfl,
   (C8_noop_conditions exState 0).2.1 rfl,
   (C8_noop_conditions exState 0).2.2.1 (by simp [exState]),
   (C8_noop_conditions { exState with layers := [exLayer, { exLayer with id := 1 }] } 0).2.2.2
     (by simp)⟩

/-- C9: a primary pointer-down with a freehand tool immediately appends a
stroke op holding exactly the one sampled point, with the eraser forcing
the fixed paint color and destination-out compositing, alpha fixed at 0.3
for the highlighter and the user alpha otherwise, on the current layer. -/
theorem C9_freehand_start (pos : Point ℝ) (cfg : Settings) (s : DocState)
    (h : cfg.tool = Tool.pen ∨ cfg.tool = Tool.highlighter ∨ cfg.tool = Tool.eraser) :
    ∃ st : StrokeOp,
      (pointerDown 0 pos cfg s).ops = s.ops ++ [Op.stroke st] ∧
      (pointerDown 0 pos cfg s).currentStroke = some st ∧
      st.points = [pos] ∧
      st.tool = cfg.tool ∧
      st.color = (if cfg.tool = Tool.eraser then "#000000" else cfg.color) ∧
      st.composite = (if cfg.tool = Tool.eraser then "destination-out" else "source-over") ∧
      st.alpha = (if cfg.tool = Tool.highlighter then 3 / 10 else cfg.alpha) ∧
      st.layer = s.currentLayer := by
  have htext : ¬cfg.tool = Tool.text := by rcases h with h | h | h <;> simp [h]
  have hfree : cfg.tool ∈ FREEHAND_TOOLS := by
    rcases h with h | h | h <;> simp [h, FREEHAND_TOOLS]
  unfold pointerDown
  rw [if_neg (by simp), if_neg htext, if_pos hfree]
  exact ⟨_, rfl, rfl, rfl, rfl, rfl, rfl, rfl, rfl⟩

/-- Witness for C9 with the pen tool. -/
theorem C9_witness :
    ∃ st : StrokeOp,
      (pointerDown 0 exPos exCfg exState).ops = exState.ops ++ [Op.stroke st] ∧
      (pointerDown 0 exPos exCfg exState).currentStroke = some st ∧
      st.points = [exPos] ∧
      st.tool = exCfg.tool ∧
      st.color = (if exCfg.tool = Tool.eraser then "#000000" else exCfg.color) ∧
      st.composite = (if exCfg.tool = Tool.eraser then "destination-out" else "source-over") ∧
      st.alpha = (if exCfg.tool = Tool.highlighter then 3 / 10 else exCfg.alpha) ∧
      st.layer = exState.currentLayer :=
  C9_freehand_start exPos exCfg exState (Or.inl rfl)

/-- C10: every primary pointer-down empties the redo stack, and with the
select, text, line, rect or ellipse tool it commits no op at all — so
discarded ops become unreachable without any new committed op; a
non-primary press changes nothing. -/
theorem C10_pointer_down_clears_redo (button : ℕ) (pos : Point ℝ) (cfg : Settings)
    (s : DocState) :
    (pointerDown 0 pos cfg s).redo = [] ∧
    ((cfg.tool = Tool.select ∨ cfg.tool = Tool.text ∨ cfg.tool = Tool.line ∨
        cfg.tool = Tool.rect ∨ cfg.tool = Tool.ellipse) →
      (pointerDown 0 pos cfg s).ops = s.ops) ∧
    (button ≠ 0 → pointerDown button pos cfg s = s) := by
  refine ⟨?_, ?_, ?_⟩
  · unfold pointerDown
    simp only [ne_eq, not_true_eq_false, if_false, ite_not]
    split_ifs <;> rfl
  · intro h
    have hfree : ¬cfg.tool ∈ FREEHAND_TOOLS := by
      rcases h with h | h | h | h | h <;> simp [h, FREEHAND_TOOLS]
    unfold pointerDown
    rw [if_neg (by simp)]
    rcases h with h | h | h | h | h <;>
      simp only [h, if_pos, if_neg, reduceCtorEq, ite_false, ite_true, hfree] <;> rfl
  · intro h
    unfold pointerDown
    rw [if_pos h]

/-- Witness for C10 with the select tool and a secondary button. -/
theorem C10_witness :
    (pointerDown 0 exPos exCfgSelect exRedoState).redo = [] ∧
    (pointerDown 0 exPos exCfgSelect exRedoState).ops = exRedoState.ops ∧
    pointerDown 2 exPos exCfgSelect exRedoState = exRedoState :=
  ⟨(C10_pointer_down_clears_redo 2 exPos exCfgSelect exRedoState).1,
   (C10_pointer_down_clears_redo 2 exPos exCfgSelect exRedoState).2.1 (Or.inl rfl),
   (C10_pointer_down_clears_redo 2 exPos exCfgSelect exRedoState).2.2 (by omega)⟩

/-- C5: every paint call of the render trace comes from a visible layer
holding the op; strokes and shapes paint with the op's stored composite
mode and alpha equal to op alpha times layer opacity, images and text
with normal blending and the layer opacity alone; removing an invisible
layer leaves the trace unchanged. -/
theorem C5_compositing_alpha (layers : List Layer) (ops : List Op) :
    (∀ cmd ∈ renderTrace layers ops, ∃ l, l ∈ layers ∧ l.visible = true ∧
      cmd.op.layer = l.id ∧
      (∀ st, cmd.op = Op.stroke st →
        cmd.alpha = st.alpha * l.opacity ∧ cmd.composite = st.composite) ∧
      (∀ sh, cmd.op = Op.shape sh →
        cmd.alpha = sh.alpha * l.opacity ∧ cmd.composite = sh.composite) ∧
      (∀ i, cmd.op = Op.image i →
        cmd.alpha = l.opacity ∧ cmd.composite = "source-over") ∧
      (∀ t, cmd.op = Op.text t →
        cmd.alpha = l.opacity ∧ cmd.composite = "source-over")) ∧
    (∀ pre post lay, lay.visible = false →
      renderTrace (pre ++ lay :: post) ops = renderTrace (pre ++ post) ops) := by
  constructor
  · intro cmd hcmd
    simp only [renderTrace, List.mem_flatMap] at hcmd
    obtain ⟨l, hl, hcl⟩ := hcmd
    by_cases hvis : l.visible
    · rw [if_pos hvis] at hcl
      refine ⟨l, hl, hvis, ?_⟩
      simp only [layerCmds, List.mem_map, List.mem_filter] at hcl
      obtain ⟨op, ⟨hop, hlay⟩, hmap⟩ := hcl
      cases op with
      | stroke st => subst hmap; simpa using of_decide_eq_true hlay
      | shape sh => subst hmap; simpa using of_decide_eq_true hlay
      | image i => subst hmap; simpa using of_decide_eq_true hlay
      | text t => subst hmap; simpa using of_decide_eq_true hlay
    · rw [if_neg hvis] at hcl
      exact absurd hcl (List.not_mem_nil cmd)
  · intro pre post lay hlay
    simp [renderTrace, hlay]

/-- Witness for C5: a text op on the default layer paints with the layer
opacity and normal blending. -/
theorem C5_witness :
    ∃ l, l ∈ [exLayer] ∧ l.visible = true ∧
      (PaintCmd.mk "source-over" (1 : ℝ) exOp).op.layer = l.id ∧
      (∀ st, (PaintCmd.mk "source-over" (1 : ℝ) exOp).op = Op.stroke st →
        (PaintCmd.mk "source-over" (1 : ℝ) exOp).alpha = st.alpha * l.opacity ∧
        (PaintCmd.mk "source-over" (1 : ℝ) exOp).composite = st.composite) ∧
      (∀ sh, (PaintCmd.mk "source-over" (1 : ℝ) exOp).op = Op.shape sh →
        (PaintCmd.mk "source-over" (1 : ℝ) exOp).alpha = sh.alpha * l.opacity ∧
        (PaintCmd.mk "source-over" (1 : ℝ) exOp).composite = sh.composite) ∧
      (∀ i, (PaintCmd.mk "source-over" (1 : ℝ) exOp).op = Op.image i →
        (PaintCmd.mk "source-over" (1 : ℝ) exOp).alpha = l.opacity ∧
        (PaintCmd.mk "source-over" (1 : ℝ) exOp).composite = "source-over") ∧
      (∀ t, (PaintCmd.mk "source-over" (1 : ℝ) exOp).op = Op.text t →
        (PaintCmd.mk "source-over" (1 : ℝ) exOp).alpha = l.opacity ∧
        (PaintCmd.mk "source-over" (1 : ℝ) exOp).composite = "source-over") :=
  (C5_compositing_alpha [exLayer] [exOp]).1 (PaintCmd.mk "source-over" (1 : ℝ) exOp)
    (List.Mem.head _)

/-- C6: the shape-constraint function returns its input unchanged when the
constraint is inactive, is idempotent when active (it is a pure Lean
function, hence side-effect-free by construction), and for every rect or
ellipse with the constraint active it anchors at the original start
point, keeps the shape kind, and sets each side to the smaller of the two
magnitudes with that axis's original sign, producing equal side
magnitudes; the spec's rect example `(0,0)-(10,4)` yields `(0,0)-(4,4)`. -/
theorem C6_constraint_stable (s : ShapeOp) :
    constrainWithShift s false = s ∧
    constrainWithShift (constrainWithShift s true) true = constrainWithShift s true ∧
    (¬s.shape = ShapeKind.line →
      (constrainWithShift s true).shape = s.shape ∧
      (constrainWithShift s true).x0 = s.x0 ∧
      (constrainWithShift s true).y0 = s.y0 ∧
      (constrainWithShift s true).x1 - s.x0
        = Real.sign (s.x1 - s.x0) * min (abs (s.x1 - s.x0)) (abs (s.y1 - s.y0)) ∧
      (constrainWithShift s true).y1 - s.y0
        = Real.sign (s.y1 - s.y0) * min (abs (s.x1 - s.x0)) (abs (s.y1 - s.y0)) ∧
      abs ((constrainWithShift s true).x1 - s.x0)
        = abs ((constrainWithShift s true).y1 - s.y0)) ∧
    (constrainWithShift exRect true).x1 = 4 ∧ (constrainWithShift exRect true).y1 = 4 := by
  refine ⟨constrain_not_shift s, ?_, ?_, ?_⟩
  · rcases eq_or_ne s.shape ShapeKind.line with h | h
    · exact constrain_line_idem s h
    · exact constrain_box_idem s h
  · intro h
    rw [constrain_box_eval s h]
    dsimp only
    refine ⟨rfl, rfl, rfl, by ring, by ring, ?_⟩
    rw [add_sub_cancel_left, add_sub_cancel_left, abs_sign_mul_min, abs_sign_mul_min2]
  · rw [constrain_box_eval exRect (by simp [exRect])]
    dsimp only
    simp only [exRect]
    norm_num
    rw [Real.sign_of_pos (by norm_num : (0:ℝ) < 10),
      Real.sign_of_pos (by norm_num : (0:ℝ) < 4)]
    norm_num

/-- C3 (amended): for every line shape with the constraint active, the
endpoint angle is snapped to a nearest of the eight 45°-spaced directions
and the segment length is preserved, the new endpoint being
start + length × (cos, sin) of the snapped angle; the example line from
(0,0) to (10,4) snaps to angle 0 and yields endpoint (√116, 0), the
preserved length being √116 ≈ 10.77 (not 10). -/
theorem C3_line_snapping (s : ShapeOp) (h : s.shape = ShapeKind.line) :
    (∃ b, b ∈ snaps ∧
      (∀ a ∈ snaps, snapDist (atan2 (s.y1 - s.y0) (s.x1 - s.x0)) b
        ≤ snapDist (atan2 (s.y1 - s.y0) (s.x1 - s.x0)) a) ∧
      (constrainWithShift s true).x0 = s.x0 ∧
      (constrainWithShift s true).y0 = s.y0 ∧
      (constrainWithShift s true).x1
        = s.x0 + Real.sqrt ((s.x1 - s.x0) ^ 2 + (s.y1 - s.y0) ^ 2) * Real.cos b ∧
      (constrainWithShift s true).y1
        = s.y0 + Real.sqrt ((s.x1 - s.x0) ^ 2 + (s.y1 - s.y0) ^ 2) * Real.sin b ∧
      Real.sqrt (((constrainWithShift s true).x1 - s.x0) ^ 2
          + ((constrainWithShift s true).y1 - s.y0) ^ 2)
        = Real.sqrt ((s.x1 - s.x0) ^ 2 + (s.y1 - s.y0) ^ 2)) ∧
    snapBest (atan2 4 10) = 0 ∧
    constrainWithShift exLine true = { exLine with x1 := Real.sqrt 116, y1 := 0 } ∧
    (10.7 : ℝ) < Real.sqrt 116 ∧ Real.sqrt 116 < (10.8 : ℝ) := by
  obtain ⟨hmem, hmin⟩ := snapBest_mem (atan2 (s.y1 - s.y0) (s.x1 - s.x0))
  refine ⟨⟨snapBest (atan2 (s.y1 - s.y0) (s.x1 - s.x0)), hmem, hmin, ?_, ?_, ?_, ?_, ?_⟩,
    snapBest_small _ atan2_ex_bounds.1 atan2_ex_bounds.2, constrain_exLine, ?_, ?_⟩
  · rw [constrain_line_eval s h]
  · rw [constrain_line_eval s h]
  · rw [constrain_line_eval s h]
  · rw [constrain_line_eval s h]
  · rw [constrain_line_eval s h]
    dsimp only
    rw [add_sub_cancel_left, add_sub_cancel_left]
    exact sqrt_mul_cos_sin _ _ (Real.sqrt_nonneg _)
  · rw [show (10.7 : ℝ) = Real.sqrt (10.7 ^ 2) from
      (Real.sqrt_sq (by norm_num)).symm]
    exact Real.sqrt_lt_sqrt (by norm_num) (by norm_num)
  · rw [show (10.8 : ℝ) = Real.sqrt (10.8 ^ 2) from
      (Real.sqrt_sq (by norm_num)).symm]
    exact Real.sqrt_lt_sqrt (by norm_num) (by norm_num)

/-- Witness for C3 at the spec's example line. -/
theorem C3_witness :
    constrainWithShift exLine true = { exLine with x1 := Real.sqrt 116, y1 := 0 } :=
  (C3_line_snapping exLine rfl).2.2.1

/-- C3 counterexample: the claimed snapped endpoint (10, 0) is wrong — the
code preserves the true length √116 of the segment (0,0)-(10,4), so the
constrained endpoint's x-coordinate is √116 ≈ 10.77, not 10. -/
theorem C3_counterexample : (constrainWithShift exLine true).x1 ≠ 10 := by
  rw [constrain_exLine]
  dsimp only
  intro hc
  have h1 : Real.sqrt 116 ^ 2 = 116 := Real.sq_sqrt (by norm_num)
  rw [hc] at h1
  norm_num at h1

/-- C4: every output of the simplifier consists only of points of the
original vertex sequence; every original point (in particular every
discarded one) lies within squared distance ε² of an adjacent segment of
the simplified polyline; inputs of fewer than 3 points are returned
unchanged; and stroke finalization invokes the simplifier with ε = 0.9
exactly for smooth strokes. -/
theorem C4_rdp_bound {F : Type} [LinearOrderedField F] (pts : List (Point F)) (epsilon : F)
    (st : StrokeOp) :
    (pts.length < 3 → simplifyRDP pts epsilon = pts) ∧
    (∀ q ∈ simplifyRDP pts epsilon, q ∈ pts) ∧
    (2 ≤ pts.length → ∀ q ∈ pts, ∃ a b, Adjacent (simplifyRDP pts epsilon) a b ∧
      distSqToSegment q a b ≤ epsilon * epsilon) ∧
    (st.smooth = true → (finalizeStroke st).points = simplifyRDP st.points (9 / 10)) := by
  have h0 : (0 : F) ≤ epsilon * epsilon := mul_self_nonneg epsilon
  refine ⟨?_, ?_, ?_, ?_⟩
  · intro h
    unfold simplifyRDP
    rw [if_pos h]
  · intro q hq
    unfold simplifyRDP at hq
    by_cases h3 : pts.length < 3
    · rwa [if_pos h3] at hq
    · rw [if_neg h3] at hq
      exact (rdp_spec _ h0 pts.length pts le_rfl (by omega)).2.2.2.1 q hq
  · intro h2 q hq
    unfold simplifyRDP
    by_cases h3 : pts.length < 3
    · rw [if_pos h3]
      have hlen : pts.length = 2 := by omega
      obtain ⟨a, t, rfl⟩ : ∃ a t, pts = a :: t := by
        cases pts with
        | nil => simp at hlen
        | cons a t => exact ⟨a, t, rfl⟩
      obtain ⟨b, t', rfl⟩ : ∃ b t', t = b :: t' := by
        cases t with
        | nil => simp at hlen
        | cons b t' => exact ⟨b, t', rfl⟩
      obtain rfl : t' = [] := by
        cases t' with
        | nil => rfl
        | cons c t'' => simp at hlen
      refine ⟨a, b, adjacent_pair a b, ?_⟩
      simp only [List.mem_cons, List.not_mem_nil, or_false] at hq
      rcases hq with rfl | rfl
      · rw [distSqToSegment_left]
        exact h0
      · rw [distSqToSegment_right]
        exact h0
    · rw [if_neg h3]
      exact (rdp_spec _ h0 pts.length pts le_rfl (by omega)).2.2.2.2 q hq
  · intro hsm
    unfold finalizeStroke
    rw [if_pos hsm]

/-- Witness for C4 on a two-point rational polyline and a concrete smooth
stroke. -/
theorem C4_witness :
    simplifyRDP ([⟨0, 0, none⟩, ⟨3, 0, none⟩] : List (Point ℚ)) (1 / 2)
      = [⟨0, 0, none⟩, ⟨3, 0, none⟩] ∧
    (∃ a b, Adjacent (simplifyRDP ([⟨0, 0, none⟩, ⟨3, 0, none⟩] : List (Point ℚ)) (1 / 2)) a b ∧
      distSqToSegment (⟨0, 0, none⟩ : Point ℚ) a b ≤ (1 / 2) * (1 / 2)) ∧
    (finalizeStroke exStroke).points = simplifyRDP exStroke.points (9 / 10) :=
  ⟨(C4_rdp_bound ([⟨0, 0, none⟩, ⟨3, 0, none⟩] : List (Point ℚ)) (1 / 2) exStroke).1
      (by decide),
   (C4_rdp_bound ([⟨0, 0, none⟩, ⟨3, 0, none⟩] : List (Point ℚ)) (1 / 2) exStroke).2.2.1
      (by decide) ⟨0, 0, none⟩ (by decide),
   (C4_rdp_bound ([⟨0, 0, none⟩, ⟨3, 0, none⟩] : List (Point ℚ)) (1 / 2) exStroke).2.2.2 rfl⟩

/-- The spec's RDP example, evaluated: the polyline
`[(0,0), (1, 0.1), (2, -0.1), (3, 0)]` with ε = 0.5 simplifies to its two
endpoints. -/
theorem rdp_example :
    simplifyRDP ([⟨0, 0, none⟩, ⟨1, 1 / 10, none⟩, ⟨2, -(1 / 10), none⟩, ⟨3, 0, none⟩] :
        List (Point ℚ)) (1 / 2)
      = [⟨0, 0, none⟩, ⟨3, 0, none⟩] := by
  have h1 : distSqToSegment (⟨1, 1 / 10, none⟩ : Point ℚ) ⟨0, 0, none⟩ ⟨3, 0, none⟩
      = 1 / 100 := by
    simp only [distSqToSegment, sq]
    norm_num
  have h2 : distSqToSegment (⟨2, -(1 / 10), none⟩ : Point ℚ) ⟨0, 0, none⟩ ⟨3, 0, none⟩
      = 1 / 100 := by
    simp only [distSqToSegment, sq]
    norm_num
  have hm : maxPerp ([⟨0, 0, none⟩, ⟨1, 1 / 10, none⟩, ⟨2, -(1 / 10), none⟩, ⟨3, 0, none⟩] :
      List (Point ℚ)) = (1, 1 / 100) := by
    unfold maxPerp
    rw [show ([⟨0, 0, none⟩, ⟨1, 1 / 10, none⟩, ⟨2, -(1 / 10), none⟩, ⟨3, 0, none⟩] :
        List (Point ℚ)).length - 1 - 1 = 2 from rfl]
    rw [show List.range 2 = [0, 1] from rfl]
    simp only [List.foldl_cons, List.foldl_nil, List.getD_cons_succ, List.getD_cons_zero,
      List.length_cons, List.length_nil]
    norm_num [h1, h2]
  have hstep : rdp (3 + 1)
      ([⟨0, 0, none⟩, ⟨1, 1 / 10, none⟩, ⟨2, -(1 / 10), none⟩, ⟨3, 0, none⟩] :
        List (Point ℚ)) (1 / 2 * (1 / 2))
      = [⟨0, 0, none⟩, ⟨3, 0, none⟩] := by
    rw [show rdp (3 + 1)
        ([⟨0, 0, none⟩, ⟨1, 1 / 10, none⟩, ⟨2, -(1 / 10), none⟩, ⟨3, 0, none⟩] :
          List (Point ℚ)) (1 / 2 * (1 / 2))
      = (if (1 / 2 * (1 / 2) : ℚ) < (maxPerp ([⟨0, 0, none⟩, ⟨1, 1 / 10, none⟩,
            ⟨2, -(1 / 10), none⟩, ⟨3, 0, none⟩] : List (Point ℚ))).2 then
          (rdp 3 (([⟨0, 0, none⟩, ⟨1, 1 / 10, none⟩, ⟨2, -(1 / 10), none⟩, ⟨3, 0, none⟩] :
            List (Point ℚ)).take ((maxPerp ([⟨0, 0, none⟩, ⟨1, 1 / 10, none⟩,
              ⟨2, -(1 / 10), none⟩, ⟨3, 0, none⟩] : List (Point ℚ))).1 + 1))
            (1 / 2 * (1 / 2))).dropLast
          ++ rdp 3 (([⟨0, 0, none⟩, ⟨1, 1 / 10, none⟩, ⟨2, -(1 / 10), none⟩, ⟨3, 0, none⟩] :
            List (Point ℚ)).drop (maxPerp ([⟨0, 0, none⟩, ⟨1, 1 / 10, none⟩,
              ⟨2, -(1 / 10), none⟩, ⟨3, 0, none⟩] : List (Point ℚ))).1)
            (1 / 2 * (1 / 2))
        else [([⟨0, 0, none⟩, ⟨1, 1 / 10, none⟩, ⟨2, -(1 / 10), none⟩, ⟨3, 0, none⟩] :
            List (Point ℚ)).getD 0 default,
          ([⟨0, 0, none⟩, ⟨1, 1 / 10, none⟩, ⟨2, -(1 / 10), none⟩, ⟨3, 0, none⟩] :
            List (Point ℚ)).getD (([⟨0, 0, none⟩, ⟨1, 1 / 10, none⟩, ⟨2, -(1 / 10), none⟩,
              ⟨3, 0, none⟩] : List (Point ℚ)).length - 1) default]) from rfl]
    rw [hm]
    rw [if_neg (by norm_num)]
    rfl
  unfold simplifyRDP
  rw [if_neg (by norm_num)]
  exact hstep

/-- Witness for C6 at the spec's rect example. -/
theorem C6_witness :
    constrainWithShift exRect false = exRect ∧
    constrainWithShift (constrainWithShift exRect true) true = constrainWithShift exRect true ∧
    (constrainWithShift exRect true).x1 - exRect.x0
      = Real.sign (exRect.x1 - exRect.x0)
        * min (abs (exRect.x1 - exRect.x0)) (abs (exRect.y1 - exRect.y0)) :=
  ⟨(C6_constraint_stable exRect).1, (C6_constraint_stable exRect).2.1,
   ((C6_constraint_stable exRect).2.2.1 (by simp [exRect])).2.2.2.1⟩

end SmartCanvas
